import Mathlib

set_option autoImplicit false

/-!
Shallow embedding of `src/main.rs` of the proxy-find repository.

The program reads a list of proxy addresses, probes each one by issuing an
HTTP GET to a target URL through that proxy (`check_proxy`), and appends the
addresses of proxies that answered to a shared output file (`process_proxy`),
guarded by a mutex.  The `main` function parses flags, creates the output
file, launches one task per proxy with a fixed inter-launch delay, and then
sleeps a fixed duration before exiting.

Network and file-system effects are modelled by oracle environments
(`ClientEnv`, `SysEnv`); the concurrent writes to the output file are
modelled by a small labelled transition system (`SinkStep`) in which the
bytes of a record are appended one at a time while the mutex is held.
-/

/-- Errors of the HTTP client layer (`reqwest::Error`): a proxy URL the
client layer rejects, or a failure of `Client::builder().build()`. -/
inductive ReqErr where
  | badProxyUrl
  | builderFailed
deriving DecidableEq

/-- Failures of a single request: the kinds the specification enumerates,
plus a catch-all.  All of them make `send` return an error value. -/
inductive NetFailure where
  | timeout
  | connectionRefused
  | tlsFailure
  | dnsFailure
  | other
deriving DecidableEq

/-- An HTTP response; any status counts, so only the status is kept. -/
structure HttpResponse where
  status : Nat
deriving DecidableEq

/-- The result of `Proxy::all(proxy)` when it succeeds. -/
structure RProxy where
  url : String
deriving DecidableEq

/-- A built client: the timeout and proxy it was configured with. -/
structure RClient where
  timeoutSecs : Nat
  proxy : RProxy
deriving DecidableEq

/-- Oracle for the client layer: how `Proxy::all` parses an address, whether
`ClientBuilder::build` fails, and what `client.get(target).send()` returns.
A request that times out, is refused, or fails DNS or TLS is a `send` that
returns `.error`; a received response of any status is `.ok`. -/
structure ClientEnv where
  proxyAll : String → Except ReqErr RProxy
  buildClient : RClient → Option ReqErr
  send : RClient → String → Except NetFailure HttpResponse

/-- Mirrors `Result::is_ok` on the response of `send`. -/
def respIsOk (r : Except NetFailure HttpResponse) : Bool :=
  match r with
  | .ok _ => true
  | .error _ => false

/-- Embedding of `check_proxy(target, timeout, proxy)`: build a client bound
to the proxy (propagating `Proxy::all` and `build` errors with `?`), issue
one GET, and return `Ok(resp.is_ok())`. -/
def check_proxy (env : ClientEnv) (target : String) (timeout : Nat)
    (proxy : String) : Except ReqErr Bool :=
  match env.proxyAll proxy with
  | .error e => .error e
  | .ok p =>
    let client : RClient := { timeoutSecs := timeout, proxy := p }
    match env.buildClient client with
    | some e => .error e
    | none => .ok (respIsOk (env.send client target))

deriving instance DecidableEq for Except

/-- I/O errors of the output file (`tokio::io::Error`). -/
inductive IoErr where
  | diskFull
  | handleClosed
deriving DecidableEq

/-- Embedding of the `ProcessProxyError` enum of the source. -/
inductive ProcessProxyError where
  | Reqwest (e : ReqErr)
  | Io (e : IoErr)
deriving DecidableEq

/-- Embedding of the `AppConfig` struct of the source. -/
structure AppConfig where
  target : String
  input : String
  output : String
  cores : Nat
  delay : Nat
  timeout : Nat
deriving DecidableEq

/-- Embedding of `process_proxy`, sequential view: run `check_proxy`
(propagating its error with `?`); on `true`, write `proxy ++ "\n"` to the
sink in one `write_all` call, whose outcome the oracle `wenv` decides.
Returns the task result and the sink contents after the call. -/
def process_proxy (env : ClientEnv) (wenv : String → Option IoErr)
    (cfg : AppConfig) (sink : List Char) (proxy : String) :
    Except ProcessProxyError Unit × List Char :=
  match check_proxy env cfg.target cfg.timeout proxy with
  | .error e => (.error (.Reqwest e), sink)
  | .ok false => (.ok (), sink)
  | .ok true =>
    match wenv proxy with
    | some e => (.error (.Io e), sink)
    | none => (.ok (), sink ++ (proxy ++ "\n").data)

/-- Runs `process_proxy` on each proxy of a list in turn, threading the sink
through; returns the final sink and the per-task results. -/
def runTasks (env : ClientEnv) (wenv : String → Option IoErr)
    (cfg : AppConfig) (sink : List Char) :
    List String → List Char × List (Except ProcessProxyError Unit)
  | [] => (sink, [])
  | p :: rest =>
    let r := process_proxy env wenv cfg sink p
    let rs := runTasks env wenv cfg r.2 rest
    (rs.1, r.1 :: rs.2)

/-- Panics that abort startup: an `expect` on an unparseable flag value, or
the division `1000 / cps` when `cps = 0` (`u64` division by zero panics). -/
inductive StartupPanic where
  | invalidFlag (flag : String)
  | divByZero
deriving DecidableEq

/-- The delay computation of the `AppConfig` literal in `main`:
`1000 / cps` on `u64`, which panics when `cps` is zero. -/
def cfgDelay (cps : Nat) : Except StartupPanic Nat :=
  if cps = 0 then .error .divByZero else .ok (1000 / cps)

/-- Raw command-line values after clap matching.  `none` means the flag is
absent (the default applies); `some none` means it is present but its value
does not parse as a number (`expect` panics); `some (some v)` is a parsed
value. -/
structure Args where
  target : String
  input : String
  output : String
  cps : Option (Option Nat)
  cores : Option (Option Nat)
  timeoutArg : Option (Option Nat)

/-- One flag: default when absent, panic when unparseable, else the value. -/
def parseFlag (raw : Option (Option Nat)) (dflt : Nat) (flag : String) :
    Except StartupPanic Nat :=
  match raw with
  | none => .ok dflt
  | some none => .error (.invalidFlag flag)
  | some (some v) => .ok v

/-- Embedding of the `AppConfig` construction in `main`: the `cps` flag is
parsed (default 30), the delay is `1000 / cps`, then `cores` (default the
machine's cpu count) and `timeout` (default 5) are parsed, in source order. -/
def parseConfig (a : Args) (numCpus : Nat) : Except StartupPanic AppConfig :=
  match parseFlag a.cps 30 "cons_per_sec" with
  | .error e => .error e
  | .ok cps =>
    match cfgDelay cps with
    | .error e => .error e
    | .ok delay =>
      match parseFlag a.cores numCpus ("cores") with
      | .error e => .error e
      | .ok cores =>
        match parseFlag a.timeoutArg 5 "timeout" with
        | .error e => .error e
        | .ok tmo =>
          .ok { target := a.target, input := a.input, output := a.output,
                cores := cores, delay := delay, timeout := tmo }

/-- Fuel-driven helper for `bitLen`, structurally recursive so that it
reduces inside the kernel. -/
def bitLenAux : Nat → Nat → Nat
  | 0, _ => 0
  | fuel + 1, n => if n = 0 then 0 else bitLenAux fuel (n / 2) + 1

/-- The number of binary digits of a natural number (0 for 0). -/
def bitLen (n : Nat) : Nat := bitLenAux n n

/-- Round a nonnegative integer to the nearest integer with at most 24
significant bits, ties to even: the rounding an `f32` multiplication
performs on its exact product. -/
def roundSig24 (p : Nat) : Nat :=
  let bl := bitLen p
  if bl ≤ 24 then p
  else
    let k := bl - 24
    let q := p / 2 ^ k
    let r := p % 2 ^ k
    let half := 2 ^ (k - 1)
    if half < r then (q + 1) * 2 ^ k
    else if r < half then q * 2 ^ k
    else if q % 2 = 0 then q * 2 ^ k else (q + 1) * 2 ^ k

/-- The numerator of the `f32` nearest to 1.1 over the denominator `2 ^ 23`:
`1.1f32 = 9227469 / 2 ^ 23`. -/
def oneP1F32Num : Nat := 9227469

/-- Embedding of `(cfg.timeout as f32 * 1.1) as u64` for `timeout < 2 ^ 24`
(where `u64 → f32` is exact): the exact product `timeout * 1.1f32` is
rounded to `f32` and the cast to `u64` truncates toward zero. -/
def finalWaitSecs (timeout : Nat) : Nat :=
  roundSig24 (timeout * oneP1F32Num) / 2 ^ 23

/-- Observable events of `main`: reading the input list, creating
(truncating) the output file, spawning the task for one proxy, and the two
sleeps (`thread::sleep`) of the dispatch loop and of the final wait. -/
inductive Event where
  | readInput (path : String)
  | createOutput (path : String)
  | launch (idx : Nat) (proxy : String)
  | sleepMs (ms : Nat)
  | sleepSecs (secs : Nat)
deriving DecidableEq

/-- How `main` can fail: a startup panic or a propagated I/O error. -/
inductive MainError where
  | panic (e : StartupPanic)
  | io (e : IoErr)
deriving DecidableEq

/-- Oracle for the file system: the lines `load_list` reads from the input
path, and whether `File::create` (which truncates an existing file)
succeeds on the output path. -/
structure SysEnv where
  loadList : String → Except IoErr (List String)
  createFile : String → Option IoErr

/-- Embedding of the dispatch loop of `main`: for each proxy, spawn its task
(the result of which is discarded, since the `JoinHandle` is dropped) and
then sleep `delay` milliseconds before the next launch. -/
def dispatchLoop (delay : Nat) (idx : Nat) : List String → List Event
  | [] => []
  | p :: rest =>
    Event.launch idx p :: Event.sleepMs delay :: dispatchLoop delay (idx + 1) rest

/-- Embedding of `main`: parse flags into an `AppConfig` (panics abort),
read the proxy list (`?` aborts), create the output file (`?` aborts), run
the dispatch loop, then sleep `(timeout as f32 * 1.1) as u64` seconds and
return `Ok(())`.  The result is the event trace and the error, if any. -/
def mainRun (senv : SysEnv) (a : Args) (numCpus : Nat) :
    List Event × Option MainError :=
  match parseConfig a numCpus with
  | .error e => ([], some (.panic e))
  | .ok cfg =>
    match senv.loadList cfg.input with
    | .error e => ([], some (.io e))
    | .ok proxies =>
      match senv.createFile cfg.output with
      | some e => ([Event.readInput cfg.input], some (.io e))
      | none =>
        (Event.readInput cfg.input :: Event.createOutput cfg.output ::
          (dispatchLoop cfg.delay 0 proxies ++
           [Event.sleepSecs (finalWaitSecs cfg.timeout)]), none)

/-- Status of one spawned task with respect to the output file: not yet at
the write, holding the lock with `rem` bytes of its record still unwritten,
or finished. -/
inductive TStat where
  | idle
  | writing (rem : List Char)
  | done
deriving DecidableEq

/-- Pointwise update of a task-status map. -/
def upd (f : Nat → TStat) (i : Nat) (v : TStat) : Nat → TStat :=
  fun j => if j = i then v else f j

/-- The record a task writes for payload `p`: `[&proxy, "\n"].concat()`. -/
def recOf (p : List Char) : List Char := p ++ ['\n']

/-- State of the shared output file and its mutex: who holds the lock, each
task's status, and the bytes written so far. -/
structure MState where
  lock : Option Nat
  stats : Nat → TStat
  sink : List Char

/-- A task list entry: the payload bytes and whether the task reaches the
`write_all` call (its `check_proxy` returned `Ok(true)`). -/
abbrev Tasks := List (List Char × Bool)

/-- The payload of task `i` (junk outside range). -/
def payloadAt (tasks : Tasks) (i : Nat) : List Char :=
  match tasks.get? i with
  | some t => t.1
  | none => []

/-- The record task `i` writes. -/
def recAt (tasks : Tasks) (i : Nat) : List Char := recOf (payloadAt tasks i)

/-- Task `i` exists and reaches the write. -/
def wantsAt (tasks : Tasks) (i : Nat) : Prop :=
  ∃ p, tasks.get? i = some (p, true)

/-- One step of the concurrent sink protocol of `process_proxy`: a task
whose probe failed finishes without touching the file; a task whose probe
succeeded first acquires the mutex (`valid_file.lock().await`), then — with
the lock held — appends the bytes of its record one at a time (`write_all`),
and finally releases the lock.  Interleaving of steps of different tasks is
unconstrained except by the mutex. -/
inductive SinkStep (tasks : Tasks) : MState → MState → Prop where
  | skip (s : MState) (i : Nat) (p : List Char) :
      tasks.get? i = some (p, false) →
      s.stats i = TStat.idle →
      SinkStep tasks s
        { lock := s.lock, stats := upd s.stats i TStat.done, sink := s.sink }
  | acquire (s : MState) (i : Nat) (p : List Char) :
      tasks.get? i = some (p, true) →
      s.lock = none →
      s.stats i = TStat.idle →
      SinkStep tasks s
        { lock := some i, stats := upd s.stats i (TStat.writing (recOf p)),
          sink := s.sink }
  | writeByte (s : MState) (i : Nat) (c : Char) (rest : List Char) :
      s.lock = some i →
      s.stats i = TStat.writing (c :: rest) →
      SinkStep tasks s
        { lock := some i, stats := upd s.stats i (TStat.writing rest),
          sink := s.sink ++ [c] }
  | release (s : MState) (i : Nat) :
      s.lock = some i →
      s.stats i = TStat.writing [] →
      SinkStep tasks s
        { lock := none, stats := upd s.stats i TStat.done, sink := s.sink }

/-- Initial state: lock free, all tasks idle, empty file. -/
def initState : MState :=
  { lock := none, stats := fun _ => TStat.idle, sink := [] }

/-- States reachable by any interleaving of task steps. -/
def Reach (tasks : Tasks) (s : MState) : Prop :=
  Relation.ReflTransGen (SinkStep tasks) initState s

/-- Splits a byte string at newline characters; a trailing newline yields a
final empty chunk, so a file consisting of complete newline-terminated
records splits into the records' bodies followed by `[]`. -/
def splitNl : List Char → List (List Char)
  | [] => [[]]
  | c :: rest =>
    match splitNl rest with
    | [] => [[]]
    | l :: ls => if c = '\n' then [] :: l :: ls else (c :: l) :: ls

/-- The invariant of the sink protocol: statuses of out-of-range tasks never
move, only the lock holder can be mid-write, and the file contents are the
complete records of the finished writing tasks (in completion order,
without repetition) followed — when the lock is held — by the already
written part of the holder's record. -/
def SinkInv (tasks : Tasks) (s : MState) : Prop :=
  (∀ i, tasks.length ≤ i → s.stats i = TStat.idle) ∧
  (∀ i rem, s.stats i = TStat.writing rem → s.lock = some i) ∧
  ∃ ord : List Nat, ord.Nodup ∧
    (∀ i, i ∈ ord ↔ (s.stats i = TStat.done ∧ wantsAt tasks i)) ∧
    (s.lock = none → s.sink = (ord.map (recAt tasks)).flatten) ∧
    (∀ i, s.lock = some i →
      ∃ rem pre, s.stats i = TStat.writing rem ∧ wantsAt tasks i ∧
        recAt tasks i = pre ++ rem ∧
        s.sink = (ord.map (recAt tasks)).flatten ++ pre)

theorem upd_same (f : Nat → TStat) (i : Nat) (v : TStat) : upd f i v i = v := by
  simp [upd]

theorem upd_other (f : Nat → TStat) (i : Nat) (v : TStat) (j : Nat)
    (h : j ≠ i) : upd f i v j = f j := by
  simp [upd, h]

theorem wantsAt_of_get (tasks : Tasks) (i : Nat) (p : List Char)
    (h : tasks.get? i = some (p, true)) : wantsAt tasks i := ⟨p, h⟩

theorem not_wantsAt_of_get (tasks : Tasks) (i : Nat) (p : List Char)
    (h : tasks.get? i = some (p, false)) : ¬ wantsAt tasks i := by
  rintro ⟨q, hq⟩
  rw [h] at hq
  simp at hq

theorem payloadAt_of_get (tasks : Tasks) (i : Nat) (p : List Char) (b : Bool)
    (h : tasks.get? i = some (p, b)) : payloadAt tasks i = p := by
  unfold payloadAt
  rw [h]

theorem lt_length_of_get (tasks : Tasks) (i : Nat) (t : List Char × Bool)
    (h : tasks.get? i = some t) : i < tasks.length := by
  by_contra hc
  rw [List.get?_eq_none.mpr (Nat.le_of_not_lt hc)] at h
  cases h

theorem sinkInv_init (tasks : Tasks) : SinkInv tasks initState := by
  refine ⟨fun i _ => rfl, ?_, [], List.nodup_nil, ?_, ?_, ?_⟩
  · intro i rem h
    simp [initState] at h
  · intro i
    constructor
    · intro h
      cases h
    · rintro ⟨h, -⟩
      simp [initState] at h
  · intro _
    rfl
  · intro i h
    simp [initState] at h

theorem sinkInv_step (tasks : Tasks) (s t : MState)
    (hstep : SinkStep tasks s t) (hinv : SinkInv tasks s) : SinkInv tasks t := by
  obtain ⟨hout, hlk, ord, hnd, hmem, hnone, hsome⟩ := hinv
  cases hstep with
  | skip i p hget hidle =>
    have hilt : i < tasks.length := lt_length_of_get tasks i _ hget
    refine ⟨?_, ?_, ord, hnd, ?_, ?_, ?_⟩
    · intro j hj
      have hji : j ≠ i := fun he => absurd hilt (by omega)
      show upd s.stats i TStat.done j = TStat.idle
      rw [upd_other _ _ _ _ hji]
      exact hout j hj
    · intro j rem hw
      have hwu : upd s.stats i TStat.done j = TStat.writing rem := hw
      show s.lock = some j
      by_cases hji : j = i
      · subst hji
        rw [upd_same] at hwu
        cases hwu
      · rw [upd_other _ _ _ _ hji] at hwu
        exact hlk j rem hwu
    · intro j
      show j ∈ ord ↔ upd s.stats i TStat.done j = TStat.done ∧ wantsAt tasks j
      by_cases hji : j = i
      · subst hji
        rw [upd_same]
        constructor
        · intro hj
          exact absurd ((hmem j).mp hj).1 (by rw [hidle]; intro h; cases h)
        · rintro ⟨-, hw⟩
          exact absurd hw (not_wantsAt_of_get tasks j p hget)
      · rw [upd_other _ _ _ _ hji]
        exact hmem j
    · intro h
      exact hnone h
    · intro j hj
      obtain ⟨rem, pre, hw, hwant, hrec, hs⟩ := hsome j hj
      have hji : j ≠ i := by
        intro he
        rw [he, hidle] at hw
        cases hw
      refine ⟨rem, pre, ?_, hwant, hrec, hs⟩
      show upd s.stats i TStat.done j = TStat.writing rem
      rw [upd_other _ _ _ _ hji]
      exact hw
  | acquire i p hget hlock hidle =>
    have hilt : i < tasks.length := lt_length_of_get tasks i _ hget
    refine ⟨?_, ?_, ord, hnd, ?_, ?_, ?_⟩
    · intro j hj
      have hji : j ≠ i := fun he => absurd hilt (by omega)
      show upd s.stats i (TStat.writing (recOf p)) j = TStat.idle
      rw [upd_other _ _ _ _ hji]
      exact hout j hj
    · intro j rem hw
      have hwu : upd s.stats i (TStat.writing (recOf p)) j = TStat.writing rem := hw
      show some i = some j
      by_cases hji : j = i
      · subst hji
        rfl
      · rw [upd_other _ _ _ _ hji] at hwu
        rw [hlk j rem hwu] at hlock
        cases hlock
    · intro j
      show j ∈ ord ↔ upd s.stats i (TStat.writing (recOf p)) j = TStat.done ∧ wantsAt tasks j
      by_cases hji : j = i
      · subst hji
        rw [upd_same]
        constructor
        · intro hj
          have hd := ((hmem j).mp hj).1
          rw [hidle] at hd
          cases hd
        · rintro ⟨hw, -⟩
          cases hw
      · rw [upd_other _ _ _ _ hji]
        exact hmem j
    · intro h
      cases h
    · intro j hj
      have hji : i = j := Option.some.inj hj
      subst hji
      refine ⟨recOf p, [], upd_same _ _ _, wantsAt_of_get tasks i p hget, ?_, ?_⟩
      · rw [recAt, payloadAt_of_get tasks i p true hget]
        simp
      · show s.sink = (ord.map (recAt tasks)).flatten ++ []
        rw [hnone hlock]
        simp
  | writeByte i c rest hlock hw =>
    have hilt : i < tasks.length := by
      by_contra hc
      rw [hout i (Nat.le_of_not_lt hc)] at hw
      cases hw
    refine ⟨?_, ?_, ord, hnd, ?_, ?_, ?_⟩
    · intro j hj
      have hji : j ≠ i := fun he => absurd hilt (by omega)
      show upd s.stats i (TStat.writing rest) j = TStat.idle
      rw [upd_other _ _ _ _ hji]
      exact hout j hj
    · intro j rem hwj
      have hwu : upd s.stats i (TStat.writing rest) j = TStat.writing rem := hwj
      show some i = some j
      by_cases hji : j = i
      · subst hji
        rfl
      · rw [upd_other _ _ _ _ hji] at hwu
        rw [hlk j rem hwu] at hlock
        cases hlock
        exact absurd rfl hji
    · intro j
      show j ∈ ord ↔ upd s.stats i (TStat.writing rest) j = TStat.done ∧ wantsAt tasks j
      by_cases hji : j = i
      · subst hji
        rw [upd_same]
        constructor
        · intro hj
          have hd := ((hmem j).mp hj).1
          rw [hw] at hd
          cases hd
        · rintro ⟨hd, -⟩
          cases hd
      · rw [upd_other _ _ _ _ hji]
        exact hmem j
    · intro h
      cases h
    · intro j hj
      have hji : i = j := Option.some.inj hj
      subst hji
      obtain ⟨rem, pre, hw2, hwant, hrec, hs⟩ := hsome i hlock
      rw [hw] at hw2
      cases hw2
      refine ⟨rest, pre ++ [c], upd_same _ _ _, hwant, ?_, ?_⟩
      · rw [hrec]
        simp
      · show s.sink ++ [c] = (ord.map (recAt tasks)).flatten ++ (pre ++ [c])
        rw [hs]
        simp
  | release i hlock hw =>
    have hilt : i < tasks.length := by
      by_contra hc
      rw [hout i (Nat.le_of_not_lt hc)] at hw
      cases hw
    obtain ⟨rem, pre, hw2, hwant, hrec, hs⟩ := hsome i hlock
    rw [hw] at hw2
    cases hw2
    rw [List.append_nil] at hrec
    have hnotmem : i ∉ ord := by
      intro hi
      have hd := ((hmem i).mp hi).1
      rw [hw] at hd
      cases hd
    refine ⟨?_, ?_, ord ++ [i], ?_, ?_, ?_, ?_⟩
    · intro j hj
      have hji : j ≠ i := fun he => absurd hilt (by omega)
      show upd s.stats i TStat.done j = TStat.idle
      rw [upd_other _ _ _ _ hji]
      exact hout j hj
    · intro j rem hwj
      have hwu : upd s.stats i TStat.done j = TStat.writing rem := hwj
      show (none : Option Nat) = some j
      by_cases hji : j = i
      · subst hji
        rw [upd_same] at hwu
        cases hwu
      · rw [upd_other _ _ _ _ hji] at hwu
        rw [hlk j rem hwu] at hlock
        cases hlock
        exact absurd rfl hji
    · exact List.Nodup.append hnd (List.nodup_singleton i)
        (fun a ha hb => by rw [List.mem_singleton] at hb; subst hb; exact hnotmem ha)
    · intro j
      rw [List.mem_append, List.mem_singleton]
      show j ∈ ord ∨ j = i ↔ upd s.stats i TStat.done j = TStat.done ∧ wantsAt tasks j
      by_cases hji : j = i
      · subst hji
        rw [upd_same]
        constructor
        · intro _
          exact ⟨rfl, hwant⟩
        · intro _
          exact Or.inr rfl
      · rw [upd_other _ _ _ _ hji]
        constructor
        · intro hj
          rcases hj with hj | hj
          · exact (hmem j).mp hj
          · exact absurd hj hji
        · intro hj
          exact Or.inl ((hmem j).mpr hj)
    · intro _
      show s.sink = ((ord ++ [i]).map (recAt tasks)).flatten
      rw [hs, ← hrec]
      simp
    · intro j hj
      cases hj

theorem sinkInv_reach (tasks : Tasks) (s : MState) (h : Reach tasks s) :
    SinkInv tasks s := by
  induction h with
  | refl => exact sinkInv_init tasks
  | tail hstar hstep ih => exact sinkInv_step tasks _ _ hstep ih

theorem splitNl_ne_nil (cs : List Char) : splitNl cs ≠ [] := by
  cases cs with
  | nil => simp [splitNl]
  | cons c rest =>
    simp only [splitNl]
    cases splitNl rest with
    | nil => simp
    | cons l ls =>
      by_cases hc : c = '\n' <;> simp [hc]

theorem splitNl_rec (p rest : List Char) (hnl : '\n' ∉ p) :
    splitNl (p ++ '\n' :: rest) = p :: splitNl rest := by
  induction p with
  | nil =>
    simp only [List.nil_append, splitNl]
    cases h : splitNl rest with
    | nil => exact absurd h (splitNl_ne_nil rest)
    | cons l ls => simp
  | cons c p ih =>
    have hc : c ≠ '\n' := fun he => hnl (by rw [he]; exact List.mem_cons_self _ _)
    have hnl2 : '\n' ∉ p := fun hm => hnl (List.mem_cons_of_mem _ hm)
    simp only [List.cons_append, splitNl, List.append_eq]
    rw [ih hnl2]
    simp [hc]

theorem splitNl_flatten (tasks : Tasks) (ord : List Nat)
    (hnl : ∀ i ∈ ord, '\n' ∉ payloadAt tasks i) :
    splitNl ((ord.map (recAt tasks)).flatten) =
      ord.map (payloadAt tasks) ++ [[]] := by
  induction ord with
  | nil => simp [splitNl]
  | cons i ord ih =>
    simp only [List.map_cons, List.flatten_cons]
    rw [recAt, recOf, List.append_assoc, List.singleton_append]
    rw [splitNl_rec _ _ (hnl i (List.mem_cons_self _ _))]
    rw [ih (fun j hj => hnl j (List.mem_cons_of_mem _ hj))]
    simp

theorem payloadAt_no_nl (tasks : Tasks) (hnl : ∀ t ∈ tasks, '\n' ∉ t.1)
    (i : Nat) : '\n' ∉ payloadAt tasks i := by
  unfold payloadAt
  cases h : tasks.get? i with
  | none => simp
  | some t => exact hnl t (List.get?_mem h)

theorem lock_free_of_all_done (tasks : Tasks) (s : MState)
    (hinv : SinkInv tasks s)
    (hdone : ∀ i, i < tasks.length → s.stats i = TStat.done) :
    s.lock = none := by
  obtain ⟨hout, hlk, ord, hnd, hmem, hnone, hsome⟩ := hinv
  cases hl : s.lock with
  | none => rfl
  | some i =>
    obtain ⟨rem, pre, hw, -, -, -⟩ := hsome i hl
    by_cases hi : i < tasks.length
    · rw [hdone i hi] at hw
      cases hw
    · rw [hout i (Nat.le_of_not_lt hi)] at hw
      cases hw

/-- The boolean the `if` of `process_proxy` branches on: whether
`check_proxy` returned `Ok(true)` for this proxy. -/
def checkOk (env : ClientEnv) (cfg : AppConfig) (p : String) : Bool :=
  match check_proxy env cfg.target cfg.timeout p with
  | .ok true => true
  | _ => false

theorem checkOk_iff (env : ClientEnv) (cfg : AppConfig) (p : String) :
    checkOk env cfg p = true ↔
      check_proxy env cfg.target cfg.timeout p = Except.ok true := by
  unfold checkOk
  cases h : check_proxy env cfg.target cfg.timeout p with
  | error e => simp
  | ok b => cases b <;> simp

/-- The task list the spawned `process_proxy` calls realise: for each proxy
of the input, its payload bytes and whether its task reaches the sink write
(`check_proxy` returned `Ok(true)`, and the `write_all` call will succeed,
which the oracle `ws` decides). -/
def mkTasks (env : ClientEnv) (cfg : AppConfig) (ws : String → Bool)
    (ps : List String) : Tasks :=
  ps.map (fun p => (p.data, checkOk env cfg p && ws p))

/-- A client environment in which every probe succeeds. -/
def envAllOk : ClientEnv :=
  { proxyAll := fun u => .ok { url := u },
    buildClient := fun _ => none,
    send := fun _ _ => .ok { status := 200 } }

/-- A client environment in which `Proxy::all` rejects every address. -/
def envBadProxy : ClientEnv :=
  { proxyAll := fun _ => .error .badProxyUrl,
    buildClient := fun _ => none,
    send := fun _ _ => .error .timeout }

/-- A reference configuration: the CLI defaults of the source. -/
def cfgRef : AppConfig :=
  { target := "https://ifconfig.me", input := "proxies.txt",
    output := "valid.txt", cores := 4, delay := 33, timeout := 5 }

theorem mkTasks_length (env : ClientEnv) (cfg : AppConfig) (ws : String → Bool)
    (ps : List String) : (mkTasks env cfg ws ps).length = ps.length :=
  List.length_map _ _

theorem mkTasks_get (env : ClientEnv) (cfg : AppConfig) (ws : String → Bool)
    (ps : List String) (i : Nat) (p : String) (hp : ps.get? i = some p) :
    (mkTasks env cfg ws ps).get? i = some (p.data, checkOk env cfg p && ws p) := by
  unfold mkTasks
  rw [List.get?_map, hp]
  rfl

theorem payloadAt_mkTasks (env : ClientEnv) (cfg : AppConfig)
    (ws : String → Bool) (ps : List String) (i : Nat) (p : String)
    (hp : ps.get? i = some p) :
    payloadAt (mkTasks env cfg ws ps) i = p.data :=
  payloadAt_of_get _ i _ _ (mkTasks_get env cfg ws ps i p hp)

theorem wantsAt_mkTasks (env : ClientEnv) (cfg : AppConfig)
    (ws : String → Bool) (ps : List String) (i : Nat) :
    wantsAt (mkTasks env cfg ws ps) i ↔
      ∃ p, ps.get? i = some p ∧ checkOk env cfg p = true ∧ ws p = true := by
  unfold wantsAt
  cases hp : ps.get? i with
  | none =>
    constructor
    · rintro ⟨q, hq⟩
      rw [mkTasks, List.get?_map, hp] at hq
      cases hq
    · rintro ⟨p, hp2, -, -⟩
      simp [hp] at hp2
  | some p =>
    rw [mkTasks_get env cfg ws ps i p hp]
    constructor
    · rintro ⟨q, hq⟩
      have hq2 : (p.data, checkOk env cfg p && ws p) = (q, true) :=
        Option.some.inj hq
      have hb : (checkOk env cfg p && ws p) = true := congrArg Prod.snd hq2
      rw [Bool.and_eq_true] at hb
      exact ⟨p, rfl, hb.1, hb.2⟩
    · rintro ⟨q, hq, hck, hws⟩
      have hq2 : some p = some q := hp ▸ hq
      have hqp : p = q := Option.some.inj hq2
      subst hqp
      refine ⟨p.data, ?_⟩
      rw [hck, hws]
      rfl

theorem check_proxy_eval (env : ClientEnv) (target : String) (timeout : Nat)
    (proxy : String) (p : RProxy)
    (hp : env.proxyAll proxy = Except.ok p)
    (hb : env.buildClient { timeoutSecs := timeout, proxy := p } = none) :
    check_proxy env target timeout proxy =
      Except.ok (respIsOk (env.send { timeoutSecs := timeout, proxy := p } target)) := by
  simp only [check_proxy, hp, hb]

theorem count_map_eq_ite (f : Nat → List Char) (x : List Char) (j : Nat)
    (hfj : f j = x) :
    ∀ (l : List Nat), l.Nodup → (∀ i ∈ l, f i = x → i = j) →
      (l.map f).count x = if j ∈ l then 1 else 0 := by
  intro l
  induction l with
  | nil =>
    intro _ _
    simp
  | cons a l ih =>
    intro hnd huniq
    rw [List.nodup_cons] at hnd
    rw [List.map_cons, List.count_cons]
    by_cases hfa : f a = x
    · have haj : a = j := huniq a (List.mem_cons_self a l) hfa
      subst haj
      have hx : x ∉ l.map f := by
        intro hx
        obtain ⟨i, hi, hfi⟩ := List.mem_map.mp hx
        have hia := huniq i (List.mem_cons_of_mem _ hi) hfi
        subst hia
        exact hnd.1 hi
      simp [List.count_eq_zero.mpr hx, hfa]
    · have haj : a ≠ j := fun he => hfa (he ▸ hfj)
      rw [ih hnd.2 (fun i hi hfi => huniq i (List.mem_cons_of_mem _ hi) hfi)]
      have hbeq : (f a == x) = false := by
        rw [beq_eq_false_iff_ne]
        exact hfa
      rw [hbeq]
      simp [List.mem_cons, Ne.symm haj]

/-- C1: for every target, timeout and proxy address for which a probing
client can be constructed (the proxy parses and the builder succeeds),
`check_proxy` returns `Ok(true)` iff a response of any status is received
before the timeout, and every request failure — timeout, connection
refused, TLS failure, DNS failure — yields `Ok(false)`, never an error. -/
theorem check_proxy_true_iff_response (env : ClientEnv) (target : String)
    (timeout : Nat) (proxy : String) (p : RProxy)
    (hp : env.proxyAll proxy = Except.ok p)
    (hb : env.buildClient { timeoutSecs := timeout, proxy := p } = none) :
    (check_proxy env target timeout proxy = Except.ok true ↔
      ∃ r, env.send { timeoutSecs := timeout, proxy := p } target = Except.ok r) ∧
    (∀ f : NetFailure,
      env.send { timeoutSecs := timeout, proxy := p } target = Except.error f →
      check_proxy env target timeout proxy = Except.ok false) := by
  constructor
  · rw [check_proxy_eval env target timeout proxy p hp hb]
    cases hs : env.send { timeoutSecs := timeout, proxy := p } target with
    | ok r => simp [respIsOk]
    | error f => simp [respIsOk]
  · intro f hf
    rw [check_proxy_eval env target timeout proxy p hp hb, hf]
    rfl

/-- Witness for C1 at a concrete environment, target, timeout and proxy. -/
theorem check_proxy_true_iff_response_witness :
    (check_proxy envAllOk ("https://ifconfig.me") 5 "1.2.3.4:8080" = Except.ok true ↔
      ∃ r, envAllOk.send { timeoutSecs := 5, proxy := { url := "1.2.3.4:8080" } }
        "https://ifconfig.me" = Except.ok r) ∧
    (∀ f : NetFailure,
      envAllOk.send { timeoutSecs := 5, proxy := { url := "1.2.3.4:8080" } }
        "https://ifconfig.me" = Except.error f →
      check_proxy envAllOk ("https://ifconfig.me") 5 "1.2.3.4:8080" = Except.ok false) :=
  check_proxy_true_iff_response envAllOk ("https://ifconfig.me") 5 "1.2.3.4:8080"
    { url := "1.2.3.4:8080" } rfl rfl

/-- C2: when the client layer cannot construct a client bound to the given
proxy (`Proxy::all` or `build` fails), `check_proxy` returns that error and
`process_proxy` propagates it to its caller as a `Reqwest` error; when the
client is constructed, no outcome of the request itself makes `check_proxy`
return an error. -/
theorem probe_config_error_propagation (env : ClientEnv)
    (wenv : String → Option IoErr) (cfg : AppConfig) (sink : List Char)
    (proxy : String) :
    (∀ e, env.proxyAll proxy = Except.error e →
      check_proxy env cfg.target cfg.timeout proxy = Except.error e ∧
      (process_proxy env wenv cfg sink proxy).1 =
        Except.error (ProcessProxyError.Reqwest e)) ∧
    (∀ p e, env.proxyAll proxy = Except.ok p →
      env.buildClient { timeoutSecs := cfg.timeout, proxy := p } = some e →
      check_proxy env cfg.target cfg.timeout proxy = Except.error e ∧
      (process_proxy env wenv cfg sink proxy).1 =
        Except.error (ProcessProxyError.Reqwest e)) ∧
    (∀ p, env.proxyAll proxy = Except.ok p →
      env.buildClient { timeoutSecs := cfg.timeout, proxy := p } = none →
      ∀ e : ReqErr, check_proxy env cfg.target cfg.timeout proxy ≠ Except.error e) := by
  refine ⟨?_, ?_, ?_⟩
  · intro e he
    have hck : check_proxy env cfg.target cfg.timeout proxy = Except.error e := by
      simp only [check_proxy, he]
    exact ⟨hck, by simp only [process_proxy, hck]⟩
  · intro p e hp hb
    have hck : check_proxy env cfg.target cfg.timeout proxy = Except.error e := by
      simp only [check_proxy, hp, hb]
    exact ⟨hck, by simp only [process_proxy, hck]⟩
  · intro p hp hb e hck
    rw [check_proxy_eval env cfg.target cfg.timeout proxy p hp hb] at hck
    cases hck

/-- Witness for C2 at a concrete environment in which `Proxy::all` rejects
the address. -/
theorem probe_config_error_propagation_witness :
    check_proxy envBadProxy cfgRef.target cfgRef.timeout ("not a proxy") =
      Except.error ReqErr.badProxyUrl ∧
    (process_proxy envBadProxy (fun _ => none) cfgRef [] "not a proxy").1 =
      Except.error (ProcessProxyError.Reqwest ReqErr.badProxyUrl) :=
  (probe_config_error_propagation envBadProxy (fun _ => none) cfgRef []
    "not a proxy").1 ReqErr.badProxyUrl rfl

/-- C3: under any interleaving of concurrently completing tasks, whenever
the sink mutex is free the output file consists exactly of complete,
newline-terminated records — one per recorded task, without repetition and
with no partial or interleaved line — because each record's bytes are
appended while its task alone holds the lock. -/
theorem sink_writes_never_interleave (tasks : Tasks) (s : MState)
    (hre : Reach tasks s) (hq : s.lock = none)
    (hnl : ∀ t ∈ tasks, '\n' ∉ t.1) :
    ∃ ord : List Nat, ord.Nodup ∧ (∀ i ∈ ord, wantsAt tasks i) ∧
      s.sink = (ord.map (recAt tasks)).flatten ∧
      splitNl s.sink = ord.map (payloadAt tasks) ++ [[]] := by
  obtain ⟨hout, hlk, ord, hnd, hmem, hnone, hsome⟩ := sinkInv_reach tasks s hre
  refine ⟨ord, hnd, fun i hi => ((hmem i).mp hi).2, hnone hq, ?_⟩
  rw [hnone hq]
  exact splitNl_flatten tasks ord (fun i _ => payloadAt_no_nl tasks hnl i)

/-- Witness for C3 at a concrete task list and reachable state. -/
theorem sink_writes_never_interleave_witness :
    ∃ ord : List Nat, ord.Nodup ∧ (∀ i ∈ ord, wantsAt [(['A'], true)] i) ∧
      initState.sink = (ord.map (recAt [(['A'], true)])).flatten ∧
      splitNl initState.sink = ord.map (payloadAt [(['A'], true)]) ++ [[]] :=
  sink_writes_never_interleave [(['A'], true)] initState
    Relation.ReflTransGen.refl rfl (by decide)

/-- The tasks of the run on the duplicated input `["A", "A"]` in which both
probes succeed and both writes succeed. -/
def tasksAA : Tasks := mkTasks envAllOk cfgRef (fun _ => true) ["A", "A"]

/-- C4 counterexample: with the input `["A", "A"]`, the probe of the input
address `"A"` succeeds, and a complete run of the two spawned tasks writes
the address on two lines of the output, not exactly once. -/
theorem duplicate_input_written_twice :
    check_proxy envAllOk cfgRef.target cfgRef.timeout ("A") = Except.ok true ∧
    ∃ s : MState, Reach tasksAA s ∧
      (∀ i, i < 2 → s.stats i = TStat.done) ∧
      (splitNl s.sink).count ("A".data) = 2 := by
  refine ⟨rfl, ?_⟩
  refine ⟨_, Relation.ReflTransGen.tail (Relation.ReflTransGen.tail
      (Relation.ReflTransGen.tail (Relation.ReflTransGen.tail
      (Relation.ReflTransGen.tail (Relation.ReflTransGen.tail
      (Relation.ReflTransGen.tail (Relation.ReflTransGen.tail
        Relation.ReflTransGen.refl
        (SinkStep.acquire initState 0 ['A'] rfl rfl rfl))
        (SinkStep.writeByte _ 0 'A' ['\n'] rfl rfl))
        (SinkStep.writeByte _ 0 '\n' [] rfl rfl))
        (SinkStep.release _ 0 rfl rfl))
        (SinkStep.acquire _ 1 ['A'] rfl rfl rfl))
        (SinkStep.writeByte _ 1 'A' ['\n'] rfl rfl))
        (SinkStep.writeByte _ 1 '\n' [] rfl rfl))
        (SinkStep.release _ 1 rfl rfl), ?_, ?_⟩
  · decide
  · decide

/-- C4 (amended): in a complete run whose input addresses are pairwise
distinct and whose sink writes all succeed, the output contains each
address whose probe returned `Ok(true)` on exactly one line, and an
address whose probe did not return `Ok(true)` on no line. -/
theorem output_lines_match_successful_probes (env : ClientEnv)
    (cfg : AppConfig) (ps : List String) (s : MState)
    (hnd : ps.Nodup) (hnl : ∀ p ∈ ps, '\n' ∉ p.data)
    (hre : Reach (mkTasks env cfg (fun _ => true) ps) s)
    (hdone : ∀ i, i < ps.length → s.stats i = TStat.done)
    (p : String) (hp : p ∈ ps) :
    ((splitNl s.sink).dropLast).count p.data =
      if check_proxy env cfg.target cfg.timeout p = Except.ok true
      then 1 else 0 := by
  have hinv := sinkInv_reach _ _ hre
  have hdone2 : ∀ i, i < (mkTasks env cfg (fun _ => true) ps).length →
      s.stats i = TStat.done := by
    rw [mkTasks_length]
    exact hdone
  have hq := lock_free_of_all_done _ s hinv hdone2
  obtain ⟨hout, hlk, ord, hndo, hmem, hnone, hsome⟩ := hinv
  have hnlT : ∀ t ∈ mkTasks env cfg (fun _ => true) ps, '\n' ∉ t.1 := by
    intro t ht
    obtain ⟨q, hq2, hq3⟩ := List.mem_map.mp ht
    rw [← hq3]
    exact hnl q hq2
  have hsplit : splitNl s.sink =
      ord.map (payloadAt (mkTasks env cfg (fun _ => true) ps)) ++ [[]] := by
    rw [hnone hq]
    exact splitNl_flatten _ ord (fun i _ => payloadAt_no_nl _ hnlT i)
  rw [hsplit, List.dropLast_concat]
  obtain ⟨j, hj⟩ := List.mem_iff_get?.mp hp
  have hjlt : j < ps.length := by
    by_contra hc
    rw [List.get?_eq_none.mpr (Nat.le_of_not_lt hc)] at hj
    cases hj
  have hfj : payloadAt (mkTasks env cfg (fun _ => true) ps) j = p.data :=
    payloadAt_mkTasks env cfg _ ps j p hj
  have huniq : ∀ i ∈ ord,
      payloadAt (mkTasks env cfg (fun _ => true) ps) i = p.data → i = j := by
    intro i hi hpi
    have hw := ((hmem i).mp hi).2
    obtain ⟨q, hq2, -, -⟩ := (wantsAt_mkTasks env cfg _ ps i).mp hw
    rw [payloadAt_mkTasks env cfg _ ps i q hq2] at hpi
    have hqp : q = p := String.ext hpi
    subst hqp
    have hilt : i < ps.length := by
      by_contra hc
      rw [List.get?_eq_none.mpr (Nat.le_of_not_lt hc)] at hq2
      cases hq2
    exact List.get?_inj hilt hnd (hq2.trans hj.symm)
  rw [count_map_eq_ite _ p.data j hfj ord hndo huniq]
  have hmj : j ∈ ord ↔ checkOk env cfg p = true := by
    rw [hmem j]
    constructor
    · rintro ⟨-, hw⟩
      obtain ⟨q, hq2, hck, -⟩ := (wantsAt_mkTasks env cfg _ ps j).mp hw
      rw [hj] at hq2
      have hpq : p = q := Option.some.inj hq2
      rw [hpq]
      exact hck
    · intro hck
      refine ⟨hdone j hjlt, ?_⟩
      exact (wantsAt_mkTasks env cfg _ ps j).mpr ⟨p, hj, hck, rfl⟩
  by_cases hck : check_proxy env cfg.target cfg.timeout p = Except.ok true
  · rw [if_pos hck, if_pos (hmj.mpr ((checkOk_iff env cfg p).mpr hck))]
  · rw [if_neg hck,
      if_neg (fun hjo => hck ((checkOk_iff env cfg p).mp (hmj.mp hjo)))]

/-- The final state of a complete run on the single input `["A"]`. -/
def sA : MState :=
  { lock := none,
    stats := upd (upd (upd (upd (fun _ => TStat.idle)
      0 (TStat.writing (recOf ['A']))) 0 (TStat.writing ['\n']))
      0 (TStat.writing [])) 0 TStat.done,
    sink := ['A', '\n'] }

theorem reach_sA : Reach (mkTasks envAllOk cfgRef (fun _ => true) ["A"]) sA :=
  Relation.ReflTransGen.tail (Relation.ReflTransGen.tail
    (Relation.ReflTransGen.tail (Relation.ReflTransGen.tail
      Relation.ReflTransGen.refl
      (SinkStep.acquire initState 0 ['A'] rfl rfl rfl))
      (SinkStep.writeByte _ 0 'A' ['\n'] rfl rfl))
      (SinkStep.writeByte _ 0 '\n' [] rfl rfl))
      (SinkStep.release _ 0 rfl rfl)

/-- Witness for the amended C4 at a concrete complete run. -/
theorem output_lines_match_successful_probes_witness :
    ((splitNl sA.sink).dropLast).count ("A".data) =
      if check_proxy envAllOk cfgRef.target cfgRef.timeout ("A") = Except.ok true
      then 1 else 0 :=
  output_lines_match_successful_probes envAllOk cfgRef ["A"] sA (by decide)
    (by decide) reach_sA (by decide) "A" (by decide)

/-- A file-system oracle whose input file is empty and whose output file is
created successfully. -/
def senvEmptyOk : SysEnv :=
  { loadList := fun _ => .ok [], createFile := fun _ => none }

/-- Arguments with every optional flag absent (all defaults apply). -/
def argsDefault : Args :=
  { target := "t", input := "i", output := "o",
    cps := none, cores := none, timeoutArg := none }

/-- The configuration `argsDefault` parses to on a 4-cpu machine. -/
def cfgDefault : AppConfig :=
  { target := "t", input := "i", output := "o",
    cores := 4, delay := 33, timeout := 5 }

theorem parseConfig_delay (a : Args) (n : Nat) (cfg : AppConfig) (cps : Nat)
    (hcfg : parseConfig a n = .ok cfg)
    (hcps : parseFlag a.cps 30 "cons_per_sec" = .ok cps) :
    cps ≠ 0 ∧ cfg.delay = 1000 / cps := by
  simp only [parseConfig, hcps] at hcfg
  by_cases hc : cps = 0
  · rw [hc] at hcfg
    simp [cfgDelay] at hcfg
  · refine ⟨hc, ?_⟩
    simp only [cfgDelay, if_neg hc] at hcfg
    cases h2 : parseFlag a.cores n ("cores") with
    | error e =>
      rw [h2] at hcfg
      cases hcfg
    | ok cores =>
      rw [h2] at hcfg
      cases h3 : parseFlag a.timeoutArg 5 "timeout" with
      | error e =>
        rw [h3] at hcfg
        cases hcfg
      | ok tmo =>
        rw [h3] at hcfg
        have hrec := Except.ok.inj hcfg
        rw [← hrec]

theorem dispatch_sleep_after_launch (d : Nat) :
    ∀ (ps : List String) (i k j : Nat) (p : String),
      (dispatchLoop d i ps).get? k = some (Event.launch j p) →
      (dispatchLoop d i ps).get? (k + 1) = some (Event.sleepMs d) := by
  intro ps
  induction ps with
  | nil =>
    intro i k j p h
    cases h
  | cons q ps ih =>
    intro i k j p h
    rcases k with _ | _ | k
    · rfl
    · cases h
    · exact ih (i + 1) k j p h

/-- C5 counterexample: with the default timeout of 5 seconds the process
sleeps `(5f32 * 1.1f32) as u64 = 5` whole seconds before exiting — the f32
product is exactly 5.5 and the `as u64` cast truncates it — not
`5 × 1.1 = 5.5` seconds as claimed. -/
theorem final_wait_truncates_default_timeout :
    finalWaitSecs 5 = 5 ∧ ((finalWaitSecs 5 : ℚ) ≠ (5 : ℚ) * (11 / 10)) ∧
    (mainRun senvEmptyOk argsDefault 4).1.getLast? = some (Event.sleepSecs 5) := by
  have h5 : finalWaitSecs 5 = 5 := rfl
  refine ⟨h5, ?_, rfl⟩
  rw [h5]
  norm_num

/-- C5 (amended): after the last task is launched the process sleeps a
fixed duration of `(timeout as f32 * 1.1) as u64` whole seconds — the f32
product truncated to an integer second count, 5 s (not 5.5 s) for the
default timeout — rather than joining in-flight tasks: the final event of
every successful run is this sleep, a function of the configured timeout
alone, and the run then returns `Ok(())`. -/
theorem final_wait_is_truncated_product (senv : SysEnv) (a : Args)
    (n : Nat) (cfg : AppConfig) (ps : List String)
    (hcfg : parseConfig a n = .ok cfg)
    (hread : senv.loadList cfg.input = .ok ps)
    (hcreate : senv.createFile cfg.output = none) :
    (mainRun senv a n).1.getLast? =
      some (Event.sleepSecs (finalWaitSecs cfg.timeout)) ∧
    (mainRun senv a n).2 = none := by
  simp only [mainRun, hcfg, hread, hcreate]
  refine ⟨?_, trivial⟩
  show ((Event.readInput cfg.input :: Event.createOutput cfg.output ::
      dispatchLoop cfg.delay 0 ps) ++
      [Event.sleepSecs (finalWaitSecs cfg.timeout)]).getLast? =
    some (Event.sleepSecs (finalWaitSecs cfg.timeout))
  exact List.getLast?_concat _

/-- Witness for the amended C5 at a concrete run with timeout 10. -/
theorem final_wait_is_truncated_product_witness :
    (mainRun { loadList := fun _ => .ok ["A"], createFile := fun _ => none }
      { target := "t", input := "i", output := "o",
        cps := none, cores := none, timeoutArg := some (some 10) } 4).1.getLast? =
      some (Event.sleepSecs (finalWaitSecs 10)) ∧
    (mainRun { loadList := fun _ => .ok ["A"], createFile := fun _ => none }
      { target := "t", input := "i", output := "o",
        cps := none, cores := none, timeoutArg := some (some 10) } 4).2 = none :=
  final_wait_is_truncated_product
    { loadList := fun _ => .ok ["A"], createFile := fun _ => none }
    { target := "t", input := "i", output := "o",
      cps := none, cores := none, timeoutArg := some (some 10) } 4
    { target := "t", input := "i", output := "o",
      cores := 4, delay := 33, timeout := 10 } ["A"] rfl rfl rfl

/-- C6: the inter-launch delay is `1000 / cps` ms for a parsed `cps` flag
and defaults to `1000 / 30 = 33` ms when the flag is absent, and in the
dispatch loop the event immediately following every task launch is a sleep
of exactly this delay, before any further launch. -/
theorem launch_delay_and_cadence (a : Args) (n : Nat) (cfg : AppConfig)
    (hcfg : parseConfig a n = .ok cfg) :
    (a.cps = none → cfg.delay = 1000 / 30 ∧ cfg.delay = 33) ∧
    (∀ c, a.cps = some (some c) → c ≠ 0 → cfg.delay = 1000 / c) ∧
    (∀ ps k j p,
      (dispatchLoop cfg.delay 0 ps).get? k = some (Event.launch j p) →
      (dispatchLoop cfg.delay 0 ps).get? (k + 1) =
        some (Event.sleepMs cfg.delay)) := by
  refine ⟨?_, ?_, ?_⟩
  · intro hcps
    have h := parseConfig_delay a n cfg 30 hcfg (by rw [hcps]; rfl)
    exact ⟨h.2, h.2.trans (by norm_num)⟩
  · intro c hcps hc
    exact (parseConfig_delay a n cfg c hcfg (by rw [hcps]; rfl)).2
  · intro ps k j p h
    exact dispatch_sleep_after_launch cfg.delay ps 0 k j p h

/-- Witness for C6: with the `cps` flag absent the parsed delay is
`1000 / 30` ms, and in a concrete dispatch trace the event after the first
launch is that sleep. -/
theorem launch_delay_and_cadence_witness :
    (cfgDefault.delay = 1000 / 30 ∧ cfgDefault.delay = 33) ∧
    (dispatchLoop cfgDefault.delay 0 ["A", "B"]).get? 1 =
      some (Event.sleepMs cfgDefault.delay) :=
  ⟨(launch_delay_and_cadence argsDefault 4 cfgDefault rfl).1 rfl,
   (launch_delay_and_cadence argsDefault 4 cfgDefault rfl).2.2 ["A", "B"] 0 0 "A" rfl⟩

/-- C7: a sink write failure surfaces as an `Io` error to the probing task,
which therefore leaves its proxy out of the output; sibling tasks see the
same sink and produce the same results as if the failing task had not run;
and `main` drops every spawned task's result, so after a successful
startup the run returns `Ok(())` no matter what the tasks did. -/
theorem sink_write_error_is_task_local (env : ClientEnv) (cfg : AppConfig)
    (sink : List Char) (proxy : String) (e : IoErr)
    (wenv : String → Option IoErr)
    (hck : check_proxy env cfg.target cfg.timeout proxy = Except.ok true)
    (hw : wenv proxy = some e) :
    process_proxy env wenv cfg sink proxy =
      (Except.error (ProcessProxyError.Io e), sink) ∧
    (∀ rest, runTasks env wenv cfg sink (proxy :: rest) =
      ((runTasks env wenv cfg sink rest).1,
        Except.error (ProcessProxyError.Io e) ::
          (runTasks env wenv cfg sink rest).2)) ∧
    (∀ (senv : SysEnv) (a : Args) (n : Nat) (cfg2 : AppConfig)
        (ps : List String),
      parseConfig a n = Except.ok cfg2 →
      senv.loadList cfg2.input = Except.ok ps →
      senv.createFile cfg2.output = none →
      (mainRun senv a n).2 = none) := by
  have hpp : process_proxy env wenv cfg sink proxy =
      (Except.error (ProcessProxyError.Io e), sink) := by
    simp only [process_proxy, hck, hw]
  refine ⟨hpp, ?_, ?_⟩
  · intro rest
    simp only [runTasks, hpp]
  · intro senv a n cfg2 ps h1 h2 h3
    simp only [mainRun, h1, h2, h3]

/-- Witness for C7: a concrete task whose probe succeeds and whose sink
write fails with a disk-full error. -/
theorem sink_write_error_is_task_local_witness :
    process_proxy envAllOk (fun _ => some IoErr.diskFull) cfgRef [] "A" =
      (Except.error (ProcessProxyError.Io IoErr.diskFull), []) :=
  (sink_write_error_is_task_local envAllOk cfgRef [] "A" IoErr.diskFull
    (fun _ => some IoErr.diskFull) rfl rfl).1

/-- C8: a startup failure — an unparseable flag value, an unreadable input
file, or an uncreatable output file — aborts the run before any task is
launched; and in every run that launches a task, the trace begins with the
input read followed by the creation (truncation) of the output file, so
the output file exists before dispatch starts. -/
theorem startup_errors_abort_before_probing (senv : SysEnv) (a : Args)
    (n : Nat) :
    (∀ e, (mainRun senv a n).2 = some e →
      ∀ i p, Event.launch i p ∉ (mainRun senv a n).1) ∧
    (∀ i p, Event.launch i p ∈ (mainRun senv a n).1 →
      ∃ cfg rest, parseConfig a n = Except.ok cfg ∧
        (mainRun senv a n).1 =
          Event.readInput cfg.input :: Event.createOutput cfg.output :: rest) := by
  cases h1 : parseConfig a n with
  | error e =>
    have hm : mainRun senv a n = ([], some (MainError.panic e)) := by
      simp only [mainRun, h1]
    rw [hm]
    refine ⟨?_, ?_⟩
    · intro e2 _ i p hm2
      cases hm2
    · intro i p hm2
      cases hm2
  | ok cfg =>
    cases h2 : senv.loadList cfg.input with
    | error e =>
      have hm : mainRun senv a n = ([], some (MainError.io e)) := by
        simp only [mainRun, h1, h2]
      rw [hm]
      refine ⟨?_, ?_⟩
      · intro e2 _ i p hm2
        cases hm2
      · intro i p hm2
        cases hm2
    | ok ps =>
      cases h3 : senv.createFile cfg.output with
      | some e =>
        have hm : mainRun senv a n =
            ([Event.readInput cfg.input], some (MainError.io e)) := by
          simp only [mainRun, h1, h2, h3]
        rw [hm]
        refine ⟨?_, ?_⟩
        · intro e2 _ i p hm2
          cases hm2 with
          | tail _ hm3 => cases hm3
        · intro i p hm2
          cases hm2 with
          | tail _ hm3 => cases hm3
      | none =>
        have hm : mainRun senv a n =
            (Event.readInput cfg.input :: Event.createOutput cfg.output ::
              (dispatchLoop cfg.delay 0 ps ++
               [Event.sleepSecs (finalWaitSecs cfg.timeout)]), none) := by
          simp only [mainRun, h1, h2, h3]
        rw [hm]
        refine ⟨?_, ?_⟩
        · intro e2 h
          cases h
        · intro i p hm2
          exact ⟨cfg, dispatchLoop cfg.delay 0 ps ++
            [Event.sleepSecs (finalWaitSecs cfg.timeout)], rfl, rfl⟩

/-- Arguments whose `cps` flag is present but unparseable. -/
def argsBadCps : Args :=
  { target := "t", input := "i", output := "o",
    cps := some none, cores := none, timeoutArg := none }

/-- Witness for C8: with an unparseable `cps` flag the run panics at
startup and no task is ever launched. -/
theorem startup_errors_abort_before_probing_witness :
    Event.launch 0 "A" ∉ (mainRun senvEmptyOk argsBadCps 4).1 :=
  (startup_errors_abort_before_probing senvEmptyOk argsBadCps 4).1
    (MainError.panic (StartupPanic.invalidFlag "cons_per_sec")) rfl 0 "A"

/-- C9: given an empty input file the dispatch loop launches zero tasks,
the output file is nonetheless created, and the process exits without
error. -/
theorem empty_input_runs_clean (senv : SysEnv) (a : Args) (n : Nat)
    (cfg : AppConfig) (hcfg : parseConfig a n = Except.ok cfg)
    (hread : senv.loadList cfg.input = Except.ok [])
    (hcreate : senv.createFile cfg.output = none) :
    (mainRun senv a n).1 =
      [Event.readInput cfg.input, Event.createOutput cfg.output,
       Event.sleepSecs (finalWaitSecs cfg.timeout)] ∧
    (∀ i p, Event.launch i p ∉ (mainRun senv a n).1) ∧
    (mainRun senv a n).2 = none := by
  have htr : mainRun senv a n =
      ([Event.readInput cfg.input, Event.createOutput cfg.output,
        Event.sleepSecs (finalWaitSecs cfg.timeout)], none) := by
    simp only [mainRun, hcfg, hread, hcreate, dispatchLoop]
    rfl
  rw [htr]
  refine ⟨rfl, ?_, rfl⟩
  intro i p hm
  simp at hm

/-- Witness for C9 at a concrete environment with an empty input file. -/
theorem empty_input_runs_clean_witness :
    (mainRun senvEmptyOk argsDefault 4).1 =
      [Event.readInput cfgDefault.input, Event.createOutput cfgDefault.output,
       Event.sleepSecs (finalWaitSecs cfgDefault.timeout)] ∧
    (∀ i p, Event.launch i p ∉ (mainRun senvEmptyOk argsDefault 4).1) ∧
    (mainRun senvEmptyOk argsDefault 4).2 = none :=
  empty_input_runs_clean senvEmptyOk argsDefault 4 cfgDefault rfl rfl rfl

/-- C10: the delay computation is the unguarded integer division
`1000 / cps`: `--cps 0` panics with a division by zero at startup; for
`1 ≤ cps ≤ 1000` the delay is `⌊1000 / cps⌋` milliseconds; and for any
`cps > 1000` the delay is 0 milliseconds, silently disabling rate
limiting. -/
theorem delay_division_by_zero_and_range :
    cfgDelay 0 = Except.error StartupPanic.divByZero ∧
    (∀ c, 1 ≤ c → c ≤ 1000 → cfgDelay c = Except.ok (1000 / c)) ∧
    (∀ c, 1000 < c → cfgDelay c = Except.ok 0) ∧
    (∀ a n, a.cps = some (some 0) →
      parseConfig a n = Except.error StartupPanic.divByZero) := by
  refine ⟨rfl, ?_, ?_, ?_⟩
  · intro c h1 _
    rw [cfgDelay, if_neg (by omega)]
  · intro c h
    rw [cfgDelay, if_neg (by omega), Nat.div_eq_of_lt h]
  · intro a n hcps
    simp only [parseConfig, parseFlag, hcps, cfgDelay]
    rfl

/-- Witness for C10: concrete `cps` values inside and above the range. -/
theorem delay_division_by_zero_and_range_witness :
    cfgDelay 500 = Except.ok 2 ∧ cfgDelay 2000 = Except.ok 0 ∧
    parseConfig { argsDefault with cps := some (some 0) } 4 =
      Except.error StartupPanic.divByZero :=
  ⟨delay_division_by_zero_and_range.2.1 500 (by decide) (by decide),
   delay_division_by_zero_and_range.2.2.1 2000 (by decide),
   delay_division_by_zero_and_range.2.2.2
     { argsDefault with cps := some (some 0) } 4 rfl⟩
